import Mathlib

/-!
Shallow embedding of the `nelder-mead` Rust library (Nelder-Mead simplex
minimization) and verification of its specification claims.

The Rust code works over `f64` vectors; the embedding models the scalar type
as `ℚ` (an ordered field with a total decidable order; the objective is
assumed to return a real number, so the `partial_cmp(..).unwrap()` in
`sort_simplex` never observes NaN).  The OS random generator used by
`new_simplex` is modelled as an oracle `rand : ℕ → ℕ → ℚ` giving the realized
draw for vertex `i`, coordinate `j`.  Rust's `sort_by` is a stable sort, so
sorting is modelled with the stable `List.mergeSort`.
-/

namespace NelderMead

/-- `Point` from src/simplex.rs: `pub type Point = Vec<f64>;`. -/
abbrev Point := List ℚ

/-- A simplex vertex: a point paired with its objective value. -/
abbrev Vertex := Point × ℚ

/-- `Simplex` from src/simplex.rs: `type Simplex = Vec<(Point, f64)>;`. -/
abbrev Simplex := List Vertex

/-! ### Vector algebra (src/algebra.rs) -/

/-- `sum` from src/algebra.rs: elementwise addition via `zip`. -/
def sum (p1 p2 : Point) : Point :=
  (p1.zip p2).map (fun a => a.1 + a.2)

/-- `diff` from src/algebra.rs: elementwise subtraction via `zip`. -/
def diff (p1 p2 : Point) : Point :=
  (p1.zip p2).map (fun a => a.1 - a.2)

/-- `mult` from src/algebra.rs: scalar multiplication. -/
def mult (k : ℚ) (p : Point) : Point :=
  p.map (fun x => k * x)

/-- `avg` from src/algebra.rs: `mult(1/len, fold-sum)`, starting the fold at
`ps[0]` and folding over the remaining points. -/
def avg (ps : List Point) : Point :=
  mult (1 / (ps.length : ℚ)) ((ps.drop 1).foldl (fun x y => sum x y) (ps.headD []))

/-! ### Bounds (src/bounds.rs) -/

/-- `Bounds` from src/bounds.rs. -/
structure Bounds where
  min : Point
  max : Point

/-- The exact value of `std::f64::MAX`, as a rational. -/
def f64MAX : ℚ := (2 ^ 53 - 1) * 2 ^ 971

/-- The exact value of `std::f64::MIN`, as a rational. -/
def f64MIN : ℚ := -f64MAX

/-- `Bounds::none` from src/bounds.rs: `n` copies of `std::f64::MIN` /
`std::f64::MAX`. -/
def Bounds.none (n : ℕ) : Bounds :=
  ⟨List.replicate n f64MIN, List.replicate n f64MAX⟩

/-- `Bounds::as_vec` from src/bounds.rs: zip of the min and max points. -/
def Bounds.as_vec (b : Bounds) : List (ℚ × ℚ) :=
  b.min.zip b.max

/-- Modelled from the spec: the function `clamp(point, bounds)` is called in
src/simplex.rs but its definition is not among the provided source files.
Section 4.2 of the spec describes it: it returns a new Point where each
coordinate `i` is clipped into `[bounds.min[i], bounds.max[i]]`; pure, no
side effects. -/
def clamp (p : Point) (bounds : List (ℚ × ℚ)) : Point :=
  (p.zip bounds).map (fun a => max a.2.1 (min a.1 a.2.2))

/-! ### Params (src/params.rs) -/

/-- `Params` from src/params.rs. -/
structure Params where
  alpha : ℚ
  gamma : ℚ
  rho : ℚ
  delta : ℚ

/-- `Params::default` from src/params.rs. -/
def Params.default : Params :=
  ⟨1, 2, 1 / 2, 1 / 2⟩

/-! ### Simplex engine (src/simplex.rs) -/

/-- The comparison used by `sort_simplex`: compare vertices by their stored
objective value (`fx.partial_cmp(fy)`; total on the rationals). -/
def vle (a b : Vertex) : Bool :=
  a.2 ≤ b.2

/-- `sort_simplex` from src/simplex.rs: a stable sort by vertex value
(Rust's `sort_by` is stable). -/
def sort_simplex (s : Simplex) : Simplex :=
  s.mergeSort vle

/-- `add_point` from src/simplex.rs: push `(point, f point)`, sort, then
truncate to drop the last (worst) vertex. -/
def add_point (f : Point → ℚ) (simplex : Simplex) (point : Point) : Simplex :=
  (sort_simplex (simplex ++ [(point, f point)])).dropLast

/-- The default vertex used to model a (never-taken, for well-formed input)
out-of-bounds index. -/
def dV : Vertex := ([], 0)

/-- `step` from src/simplex.rs: one Nelder-Mead iteration
(reflection / expansion / contraction / shrink). -/
def step (f : Point → ℚ) (simplex : Simplex) (params : Params)
    (bounds_vec : List (ℚ × ℚ)) : Simplex :=
  let n := simplex.length - 1
  let x1 := (simplex.getD 0 dV).1
  let fx1 := (simplex.getD 0 dV).2
  let x0 := avg ((simplex.take n).map Prod.fst)
  let fxn := (simplex.getD (n - 1) dV).2
  let xn1 := (simplex.getD n dV).1
  let fxn1 := (simplex.getD n dV).2
  let xr := clamp (sum x0 (mult params.alpha (diff x0 xn1))) bounds_vec
  let fxr := f xr
  let xe := clamp (sum x0 (mult params.gamma (diff xr x0))) bounds_vec
  let fxe := f xe
  let xc := clamp (sum x0 (mult params.rho (diff xn1 x0))) bounds_vec
  let fxc := f xc
  if fx1 ≤ fxr ∧ fxr < fxn then
    add_point f simplex xr
  else if fxe < fxn1 then
    if fxe < fxr then add_point f simplex xe else add_point f simplex xr
  else if fxc < fxn1 then
    add_point f simplex xc
  else
    sort_simplex
      (((simplex.drop 1).map
          (fun v => sum x1 (mult params.delta (diff v.1 x1)))).map
        (fun xi => (xi, f xi)) ++ [(x1, fx1)])

/-- The `for _ in 0..max_iter` loop body of `minimize` in src/simplex.rs. -/
def loop (f : Point → ℚ) (params : Params) (bounds_vec : List (ℚ × ℚ)) :
    ℕ → Simplex → Simplex
  | 0, s => s
  | k + 1, s => loop f params bounds_vec k (step f s params bounds_vec)

/-- `minimize` from src/simplex.rs: iterate `step` `max_iter` times, then
return the better of the best vertex and the centroid of the `n` best. -/
def minimize (f : Point → ℚ) (initial_simplex : Simplex) (params : Params)
    (bounds : Bounds) (max_iter : ℕ) : Point × ℚ :=
  let bounds_vec := bounds.as_vec
  let n := initial_simplex.length - 1
  let curr := loop f params bounds_vec max_iter initial_simplex
  let x1 := (curr.getD 0 dV).1
  let fx1 := (curr.getD 0 dV).2
  let x0 := avg ((curr.take n).map Prod.fst)
  let fx0 := f x0
  if fx1 < fx0 then (x1, fx1) else (x0, fx0)

/-- `new_simplex` from src/simplex.rs, with the OS random generator modelled
as an oracle `rand i j`: the realized draw of `rng.gen_range(-radius, radius)`
for vertex `i`, coordinate `j`.  Builds `center.len() + 1` perturbed points,
evaluates `f` at each, and sorts ascending by value. -/
def new_simplex (f : Point → ℚ) (center : Point) (radius : ℚ)
    (rand : ℕ → ℕ → ℚ) : Simplex :=
  let _ := radius
  ((List.range (center.length + 1)).map (fun i =>
      let p := center.enum.map (fun jx => jx.2 + rand i jx.1)
      (p, f p))).mergeSort vle

/-! ### Public API (src/lib.rs) -/

/-- `minimize` from src/lib.rs: build the initial simplex around
`initial_point`, then run the simplex-level `minimize`. -/
def minimizeTop (f : Point → ℚ) (initial_point : Point)
    (initial_simplex_size : ℚ) (params : Params) (bounds : Bounds)
    (max_iter : ℕ) (rand : ℕ → ℕ → ℚ) : Point × ℚ :=
  minimize f (new_simplex f initial_point initial_simplex_size rand)
    params bounds max_iter

/-- `maximize` from src/lib.rs: minimize `x ↦ -1 * f x` and negate the
returned value. -/
def maximizeTop (f : Point → ℚ) (initial_point : Point)
    (initial_simplex_size : ℚ) (params : Params) (bounds : Bounds)
    (max_iter : ℕ) (rand : ℕ → ℕ → ℚ) : Point × ℚ :=
  let g : Point → ℚ := fun x => -1 * f x
  let r := minimize g (new_simplex g initial_point initial_simplex_size rand)
    params bounds max_iter
  (r.1, -1 * r.2)

/-- A simplex sorted ascending by stored objective value. -/
def SortedSimplex (s : Simplex) : Prop :=
  s.Pairwise (fun a b => a.2 ≤ b.2)

instance : DecidablePred SortedSimplex := fun s =>
  List.instDecidablePairwise s

/-! ### Helper lemmas -/

lemma vle_trans : ∀ (a b c : Vertex), vle a b → vle b c → vle a c := by
  intro a b c hab hbc
  simp only [vle, decide_eq_true_eq] at *
  exact le_trans hab hbc

lemma vle_total : ∀ (a b : Vertex), vle a b || vle b a := by
  intro a b
  simp only [vle, Bool.or_eq_true, decide_eq_true_eq]
  exact le_total a.2 b.2

lemma sortedSimplex_mergeSort (l : Simplex) : SortedSimplex (l.mergeSort vle) := by
  have h := List.sorted_mergeSort vle_trans vle_total l
  exact h.imp (by intro a b hab; simpa [vle] using hab)

lemma sorted_sort_simplex (s : Simplex) : SortedSimplex (sort_simplex s) :=
  sortedSimplex_mergeSort s

lemma sortedSimplex_dropLast {s : Simplex} (h : SortedSimplex s) :
    SortedSimplex s.dropLast :=
  h.sublist (List.dropLast_sublist s)

lemma add_point_sorted (f : Point → ℚ) (s : Simplex) (p : Point) :
    SortedSimplex (add_point f s p) :=
  sortedSimplex_dropLast (sorted_sort_simplex _)

lemma add_point_length (f : Point → ℚ) (s : Simplex) (p : Point) :
    (add_point f s p).length = s.length := by
  simp [add_point, sort_simplex]

lemma step_sorted (f : Point → ℚ) (s : Simplex) (params : Params)
    (bv : List (ℚ × ℚ)) : SortedSimplex (step f s params bv) := by
  unfold step
  dsimp only
  split_ifs <;>
    first
      | exact add_point_sorted ..
      | exact sorted_sort_simplex ..

lemma step_length (f : Point → ℚ) (s : Simplex) (params : Params)
    (bv : List (ℚ × ℚ)) (h : s ≠ []) :
    (step f s params bv).length = s.length := by
  have hl : 1 ≤ s.length := List.length_pos.mpr h
  unfold step
  dsimp only
  split_ifs <;>
    (simp [add_point_length, sort_simplex, List.length_dropLast]; try omega)

lemma new_simplex_length (f : Point → ℚ) (c : Point) (radius : ℚ)
    (rand : ℕ → ℕ → ℚ) :
    (new_simplex f c radius rand).length = c.length + 1 := by
  simp [new_simplex]

lemma new_simplex_sorted (f : Point → ℚ) (c : Point) (radius : ℚ)
    (rand : ℕ → ℕ → ℚ) : SortedSimplex (new_simplex f c radius rand) :=
  sortedSimplex_mergeSort _

lemma loop_eq_iterate (f : Point → ℚ) (params : Params) (bv : List (ℚ × ℚ)) :
    ∀ (k : ℕ) (s : Simplex),
      loop f params bv k s = (fun t => step f t params bv)^[k] s
  | 0, _ => rfl
  | k + 1, s => by
    rw [loop, loop_eq_iterate f params bv k, Function.iterate_succ_apply]

lemma getLastD_eq_getLast {l : List Vertex} (h : l ≠ []) :
    l.getLastD dV = l.getLast h := by
  cases l with
  | nil => exact absurd rfl h
  | cons a l' => rw [List.getLastD_cons, List.getLast_eq_getLastD]

lemma dropLast_concat_getLastD {l : List Vertex} (h : l ≠ []) :
    l.dropLast ++ [l.getLastD dV] = l := by
  rw [getLastD_eq_getLast h]
  exact List.dropLast_concat_getLast h

lemma mem_le_getLastD {l : List Vertex} (hs : SortedSimplex l) (h : l ≠ [])
    {v : Vertex} (hv : v ∈ l) : v.2 ≤ (l.getLastD dV).2 := by
  have hsplit := dropLast_concat_getLastD h
  set w := l.getLastD dV with hw
  rw [← hsplit] at hv
  have hs2 : SortedSimplex (l.dropLast ++ [w]) := by
    unfold SortedSimplex
    rw [hsplit]
    exact hs
  rcases List.mem_append.mp hv with h1 | h1
  · exact (List.pairwise_append.mp hs2).2.2 v h1 w (by simp)
  · rw [List.mem_singleton.mp h1]

lemma sorted_getD_le {s : Simplex} (hs : SortedSimplex s) {i j : ℕ}
    (hij : i ≤ j) (hj : j < s.length) :
    (s.getD i dV).2 ≤ (s.getD j dV).2 := by
  have hi : i < s.length := lt_of_le_of_lt hij hj
  rw [List.getD_eq_getElem?_getD, List.getD_eq_getElem?_getD,
    List.getElem?_eq_getElem hi, List.getElem?_eq_getElem hj]
  rcases Nat.eq_or_lt_of_le hij with rfl | hlt
  · simp
  · simpa using List.pairwise_iff_get.mp hs ⟨i, hi⟩ ⟨j, hj⟩ hlt

/-- Key stability fact: appending a candidate whose value is strictly below
the worst value of a sorted simplex and stably re-sorting leaves the old
worst vertex in the final slot, so that dropping the last element removes
exactly the old worst vertex and keeps everything else. -/
lemma mergeSort_concat_of_lt {s : Simplex} (hs : SortedSimplex s) (hne : s ≠ [])
    (cand : Vertex) (hlt : cand.2 < (s.getLastD dV).2) :
    (s ++ [cand]).mergeSort vle =
      ((s ++ [cand]).mergeSort vle).dropLast ++ [s.getLastD dV] ∧
    List.Perm ((s ++ [cand]).mergeSort vle).dropLast (s.dropLast ++ [cand]) := by
  have hsplit_s := dropLast_concat_getLastD hne
  set w := s.getLastD dV with hw
  set t := (s ++ [cand]).mergeSort vle with ht
  have htlen : t.length = s.length + 1 := by simp [ht]
  have htne : t ≠ [] := by
    intro hcon
    rw [hcon] at htlen
    simp at htlen
  have hperm : List.Perm t (s ++ [cand]) := List.mergeSort_perm _ _
  set pred : Vertex → Bool := fun v => decide (w.2 ≤ v.2) with hpred
  have hpred_w : pred w = true := by simp [hpred]
  have hpred_cand : pred cand = false := by
    simp only [hpred, decide_eq_false_iff_not]
    exact not_le.mpr hlt
  have hc_pair : (s.filter pred).Pairwise (fun a b => vle a b = true) := by
    have hsub : SortedSimplex (s.filter pred) := hs.sublist (List.filter_sublist s)
    exact hsub.imp (fun hab => by simpa [vle] using hab)
  have hct : List.Sublist (s.filter pred) t := by
    rw [ht]
    exact List.sublist_mergeSort vle_trans vle_total hc_pair
      ((List.filter_sublist s).trans (List.sublist_append_left s [cand]))
  have hcc : (s.filter pred).filter pred = s.filter pred :=
    List.filter_eq_self.mpr (fun a ha => (List.mem_filter.mp ha).2)
  have hctf : List.Sublist (s.filter pred) (t.filter pred) := hcc ▸ hct.filter pred
  have hfperm : List.Perm (t.filter pred) (s.filter pred) := by
    simpa [List.filter_append, hpred_cand] using hperm.filter pred
  have heq : s.filter pred = t.filter pred :=
    hctf.eq_of_length hfperm.length_eq.symm
  have hts : SortedSimplex t := by
    rw [ht]
    exact sortedSimplex_mergeSort _
  have hws : w ∈ s := by
    rw [← hsplit_s]
    exact List.mem_append_right _ (by simp)
  have hwt : w ∈ t := by
    rw [ht, List.mem_mergeSort]
    exact List.mem_append_left _ hws
  have hwle : pred (t.getLastD dV) = true := by
    simp only [hpred, decide_eq_true_eq]
    exact mem_le_getLastD hts htne hwt
  have hsplit_t := dropLast_concat_getLastD htne
  have h1 : t.filter pred = (t.dropLast).filter pred ++ [t.getLastD dV] := by
    conv_lhs => rw [← hsplit_t]
    rw [List.filter_append, List.filter_cons_of_pos hwle, List.filter_nil]
  have h2 : s.filter pred = (s.dropLast).filter pred ++ [w] := by
    conv_lhs => rw [← hsplit_s]
    rw [List.filter_append, List.filter_cons_of_pos hpred_w, List.filter_nil]
  have hlast : t.getLastD dV = w := by
    have hcong := congrArg (fun l => l.getLastD dV) heq
    rw [h1, h2] at hcong
    simpa [List.getLastD_concat] using hcong.symm
  refine ⟨?_, ?_⟩
  · rw [← hlast]
    exact hsplit_t.symm
  · have hp2 : List.Perm (t.dropLast ++ [w]) ((s.dropLast ++ [cand]) ++ [w]) := by
      rw [← hlast] at hsplit_s ⊢
      have e1 : t.dropLast ++ [t.getLastD dV] = t := hsplit_t
      have e2 : s ++ [cand] = (s.dropLast ++ [t.getLastD dV]) ++ [cand] := by
        rw [hsplit_s]
      have e3 : List.Perm ((s.dropLast ++ [t.getLastD dV]) ++ [cand])
          ((s.dropLast ++ [cand]) ++ [t.getLastD dV]) := by
        rw [List.append_assoc, List.append_assoc]
        exact List.Perm.append_left _ List.perm_append_comm
      rw [e1]
      exact (hperm.trans (e2 ▸ e3))
    exact (List.perm_append_right_iff [w]).mp hp2

/-- `add_point` on a sorted simplex with a candidate strictly better than the
worst vertex keeps everything except the worst vertex and adds the candidate. -/
lemma add_point_frame (f : Point → ℚ) {s : Simplex} (hs : SortedSimplex s)
    (hne : s ≠ []) (p : Point) (hlt : f p < (s.getLastD dV).2) :
    List.Perm (add_point f s p) (s.dropLast ++ [(p, f p)]) := by
  have h := mergeSort_concat_of_lt hs hne (p, f p) hlt
  unfold add_point sort_simplex
  exact h.2

/-! ### Claim theorems -/

/-- C5: every simplex observable outside the construction and step functions
— the result of `new_simplex` and the result of every `step` call — has
exactly N+1 vertices and is sorted ascending by the vertices' stored
objective values. -/
theorem simplex_invariant (f : Point → ℚ) (center : Point) (radius : ℚ)
    (rand : ℕ → ℕ → ℚ) (params : Params) (bv : List (ℚ × ℚ)) :
    (new_simplex f center radius rand).length = center.length + 1 ∧
    SortedSimplex (new_simplex f center radius rand) ∧
    (∀ s : Simplex, SortedSimplex (step f s params bv)) ∧
    (∀ (s : Simplex) (N : ℕ), s.length = N + 1 →
      (step f s params bv).length = N + 1) := by
  refine ⟨new_simplex_length f center radius rand,
    new_simplex_sorted f center radius rand,
    fun s => step_sorted f s params bv, fun s N hlen => ?_⟩
  rw [step_length f s params bv (by intro h; rw [h] at hlen; simp at hlen), hlen]

/-- Witness for C5 at a concrete simplex of size 1+1. -/
theorem simplex_invariant_witness :
    ([([1], (1 : ℚ)), ([2], 2)] : Simplex).length = 1 + 1 ∧
    (step (fun p => p.headD 0) [([1], (1 : ℚ)), ([2], 2)] Params.default
      [(-5, 5)]).length = 1 + 1 := by
  refine ⟨by decide, ?_⟩
  exact (simplex_invariant (fun p => p.headD 0) [0] 1 (fun _ _ => 0)
    Params.default [(-5, 5)]).2.2.2 [([1], (1 : ℚ)), ([2], 2)] 1 (by decide)

/-- C2: `minimize` applies `step` exactly `max_iter` times unconditionally
(no convergence test), then recomputes the centroid of the N best vertices
of the final simplex, evaluates `f` there, and returns the lower-valued of
the best vertex and the centroid; `max_iter = 0` performs no step. -/
theorem minimize_fixed_iteration (f : Point → ℚ) (s : Simplex)
    (params : Params) (bounds : Bounds) (N k : ℕ) (hlen : s.length = N + 1) :
    (minimize f s params bounds k =
      (let curr := (fun t => step f t params bounds.as_vec)^[k] s
       let x1 := (curr.getD 0 dV).1
       let fx1 := (curr.getD 0 dV).2
       let x0 := avg ((curr.take N).map Prod.fst)
       if fx1 < f x0 then (x1, fx1) else (x0, f x0))) ∧
    (minimize f s params bounds 0 =
      (let x1 := (s.getD 0 dV).1
       let fx1 := (s.getD 0 dV).2
       let x0 := avg ((s.take N).map Prod.fst)
       if fx1 < f x0 then (x1, fx1) else (x0, f x0))) := by
  constructor
  · simp only [minimize, loop_eq_iterate, hlen, Nat.add_sub_cancel]
  · simp only [minimize, loop, hlen, Nat.add_sub_cancel]

/-- Witness for C2 at a concrete simplex and iteration counts 2 and 0. -/
theorem minimize_fixed_iteration_witness :
    ([([0], (0 : ℚ)), ([1], 1), ([2], 4)] : Simplex).length = 1 + 1 + 1 ∧
    (minimize (fun p => (p.headD 0) ^ 2) [([0], (0 : ℚ)), ([1], 1), ([2], 4)]
        Params.default ⟨[-100], [100]⟩ 2 =
      (let curr := (fun t => step (fun p => (p.headD 0) ^ 2) t Params.default
        (Bounds.as_vec ⟨[-100], [100]⟩))^[2] [([0], (0 : ℚ)), ([1], 1), ([2], 4)]
       let x1 := (curr.getD 0 dV).1
       let fx1 := (curr.getD 0 dV).2
       let x0 := avg ((curr.take 2).map Prod.fst)
       if fx1 < (x0.headD 0) ^ 2 then (x1, fx1) else (x0, (x0.headD 0) ^ 2))) := by
  refine ⟨by decide, ?_⟩
  exact (minimize_fixed_iteration (fun p => (p.headD 0) ^ 2)
    [([0], (0 : ℚ)), ([1], 1), ([2], 4)] Params.default ⟨[-100], [100]⟩ 2 2
    (by decide)).1

/-- C10: in the final best-vertex-versus-centroid selection of `minimize`,
the best vertex is returned only when its stored value is strictly lower
than the centroid value; on exact equality the centroid is returned. -/
theorem minimize_tie_to_centroid (f : Point → ℚ) (s : Simplex)
    (params : Params) (bounds : Bounds) (N k : ℕ) (hlen : s.length = N + 1) :
    (let curr := loop f params bounds.as_vec k s
     let x1 := (curr.getD 0 dV).1
     let fx1 := (curr.getD 0 dV).2
     let x0 := avg ((curr.take N).map Prod.fst)
     (fx1 < f x0 → minimize f s params bounds k = (x1, fx1)) ∧
     (fx1 = f x0 → minimize f s params bounds k = (x0, f x0)) ∧
     (¬fx1 < f x0 → minimize f s params bounds k = (x0, f x0))) := by
  dsimp only
  refine ⟨?_, ?_, ?_⟩ <;> intro h <;>
    simp only [minimize, hlen, Nat.add_sub_cancel]
  · rw [if_pos h]
  · rw [if_neg (by rw [h]; exact lt_irrefl _)]
  · rw [if_neg h]

/-- Witness for C10: a run where the best-vertex value ties the centroid
value exactly, and the centroid is returned. -/
theorem minimize_tie_to_centroid_witness :
    ([([0], (0 : ℚ)), ([2], 0)] : Simplex).length = 1 + 1 ∧
    ((loop (fun _ => (0 : ℚ)) Params.default
        (Bounds.as_vec ⟨[-5], [5]⟩) 0 [([0], (0 : ℚ)), ([2], 0)]).getD 0 dV).2 =
      (fun _ => (0 : ℚ))
        (avg (((loop (fun _ => (0 : ℚ)) Params.default
          (Bounds.as_vec ⟨[-5], [5]⟩) 0 [([0], (0 : ℚ)), ([2], 0)]).take 1).map
            Prod.fst)) ∧
    minimize (fun _ => (0 : ℚ)) [([0], (0 : ℚ)), ([2], 0)] Params.default
        ⟨[-5], [5]⟩ 0 =
      (avg (((loop (fun _ => (0 : ℚ)) Params.default
        (Bounds.as_vec ⟨[-5], [5]⟩) 0 [([0], (0 : ℚ)), ([2], 0)]).take 1).map
          Prod.fst), 0) := by
  refine ⟨by decide, by decide, ?_⟩
  exact (minimize_tie_to_centroid (fun _ => (0 : ℚ))
    [([0], (0 : ℚ)), ([2], 0)] Params.default ⟨[-5], [5]⟩ 1 0
    (by decide)).2.1 (by decide)

/-- C6: `maximize` returns exactly the point produced by minimizing the
negated objective with the same start, radius, params, bounds, iteration
count (and random draws), paired with the negation of that minimization's
value. -/
theorem maximize_eq_neg_minimize (f : Point → ℚ) (initial_point : Point)
    (initial_simplex_size : ℚ) (params : Params) (bounds : Bounds)
    (max_iter : ℕ) (rand : ℕ → ℕ → ℚ) :
    maximizeTop f initial_point initial_simplex_size params bounds max_iter
        rand =
      ((minimizeTop (fun x => -1 * f x) initial_point initial_simplex_size
          params bounds max_iter rand).1,
       -1 * (minimizeTop (fun x => -1 * f x) initial_point initial_simplex_size
          params bounds max_iter rand).2) := rfl

/-- C1: on a sorted simplex of size N+1, `step` decides its branch in strict
priority order with first match winning: reflection when
fx_best ≤ fr < fx_second_worst; else expansion when fe < fx_worst, taking
the expanded point only when fe is strictly less than fr and otherwise the
reflected point; else contraction when fc < fx_worst; else shrink.
Accepting a point P inserts (P, f(P)), stably re-sorts ascending by value,
drops the single worst vertex, and yields a simplex of the same size N+1. -/
theorem step_branch_priority (f : Point → ℚ) (params : Params)
    (bv : List (ℚ × ℚ)) (s : Simplex) (N : ℕ) (_hN : 1 ≤ N)
    (hlen : s.length = N + 1) :
    (let fx1 := (s.getD 0 dV).2
     let fxn := (s.getD (N - 1) dV).2
     let fxn1 := (s.getD N dV).2
     let x0 := avg ((s.take N).map Prod.fst)
     let xw := (s.getD N dV).1
     let xr := clamp (sum x0 (mult params.alpha (diff x0 xw))) bv
     let xe := clamp (sum x0 (mult params.gamma (diff xr x0))) bv
     let xc := clamp (sum x0 (mult params.rho (diff xw x0))) bv
     let accept := fun p : Point => (sort_simplex (s ++ [(p, f p)])).dropLast
     ((fx1 ≤ f xr ∧ f xr < fxn) → step f s params bv = accept xr) ∧
     (¬(fx1 ≤ f xr ∧ f xr < fxn) → f xe < fxn1 → f xe < f xr →
       step f s params bv = accept xe) ∧
     (¬(fx1 ≤ f xr ∧ f xr < fxn) → f xe < fxn1 → ¬f xe < f xr →
       step f s params bv = accept xr) ∧
     (¬(fx1 ≤ f xr ∧ f xr < fxn) → ¬f xe < fxn1 → f xc < fxn1 →
       step f s params bv = accept xc) ∧
     (∀ p : Point, (accept p).length = N + 1)) := by
  dsimp only
  refine ⟨?_, ?_, ?_, ?_, ?_⟩
  · intro h1
    simp only [step, hlen, Nat.add_sub_cancel]
    rw [if_pos h1]
    rfl
  · intro h1 h2 h3
    simp only [step, hlen, Nat.add_sub_cancel]
    rw [if_neg h1, if_pos h2, if_pos h3]
    rfl
  · intro h1 h2 h3
    simp only [step, hlen, Nat.add_sub_cancel]
    rw [if_neg h1, if_pos h2, if_neg h3]
    rfl
  · intro h1 h2 h3
    simp only [step, hlen, Nat.add_sub_cancel]
    rw [if_neg h1, if_neg h2, if_pos h3]
    rfl
  · intro p
    simp [sort_simplex, hlen]

/-- Witness for C1: the theorem instantiated at a concrete sorted simplex. -/
theorem step_branch_priority_witness :
    1 ≤ 1 ∧ ([([0], (0 : ℚ)), ([2], 2)] : Simplex).length = 1 + 1 ∧
    (let s : Simplex := [([0], (0 : ℚ)), ([2], 2)]
     let f : Point → ℚ := fun p => p.headD 0
     let bv : List (ℚ × ℚ) := [(-5, 5)]
     let params := Params.default
     let fx1 := (s.getD 0 dV).2
     let fxn := (s.getD (1 - 1) dV).2
     let fxn1 := (s.getD 1 dV).2
     let x0 := avg ((s.take 1).map Prod.fst)
     let xw := (s.getD 1 dV).1
     let xr := clamp (sum x0 (mult params.alpha (diff x0 xw))) bv
     let xe := clamp (sum x0 (mult params.gamma (diff xr x0))) bv
     let xc := clamp (sum x0 (mult params.rho (diff xw x0))) bv
     let accept := fun p : Point => (sort_simplex (s ++ [(p, f p)])).dropLast
     ((fx1 ≤ f xr ∧ f xr < fxn) → step f s params bv = accept xr) ∧
     (¬(fx1 ≤ f xr ∧ f xr < fxn) → f xe < fxn1 → f xe < f xr →
       step f s params bv = accept xe) ∧
     (¬(fx1 ≤ f xr ∧ f xr < fxn) → f xe < fxn1 → ¬f xe < f xr →
       step f s params bv = accept xr) ∧
     (¬(fx1 ≤ f xr ∧ f xr < fxn) → ¬f xe < fxn1 → f xc < fxn1 →
       step f s params bv = accept xc) ∧
     (∀ p : Point, (accept p).length = 1 + 1)) :=
  ⟨le_refl 1, by decide,
    step_branch_priority (fun p => p.headD 0) Params.default [(-5, 5)]
      [([0], (0 : ℚ)), ([2], 2)] 1 (le_refl 1) (by decide)⟩

/-- C4: when no other branch matches, the shrink branch replaces every
vertex except the best with x_best + δ·(vertex_i − x_best), re-evaluates the
objective there (with no bounds clamp applied to the shrunk points), keeps
the best vertex with its same point and same stored value, and re-sorts;
the result still has N+1 vertices. -/
theorem step_shrink_branch (f : Point → ℚ) (params : Params)
    (bv : List (ℚ × ℚ)) (s : Simplex) (N : ℕ) (_hN : 1 ≤ N)
    (hlen : s.length = N + 1) :
    (let x1 := (s.getD 0 dV).1
     let fx1 := (s.getD 0 dV).2
     let fxn := (s.getD (N - 1) dV).2
     let fxn1 := (s.getD N dV).2
     let x0 := avg ((s.take N).map Prod.fst)
     let xw := (s.getD N dV).1
     let xr := clamp (sum x0 (mult params.alpha (diff x0 xw))) bv
     let xe := clamp (sum x0 (mult params.gamma (diff xr x0))) bv
     let xc := clamp (sum x0 (mult params.rho (diff xw x0))) bv
     ¬(fx1 ≤ f xr ∧ f xr < fxn) → ¬f xe < fxn1 → ¬f xc < fxn1 →
       (step f s params bv =
          sort_simplex (((s.drop 1).map (fun v =>
            sum x1 (mult params.delta (diff v.1 x1)))).map
              (fun xi => (xi, f xi)) ++ [(x1, fx1)]) ∧
        (x1, fx1) ∈ step f s params bv ∧
        (step f s params bv).length = N + 1 ∧
        SortedSimplex (step f s params bv))) := by
  dsimp only
  intro h1 h2 h3
  have heq : step f s params bv =
      sort_simplex (((s.drop 1).map (fun v =>
        sum (s.getD 0 dV).1 (mult params.delta (diff v.1 (s.getD 0 dV).1)))).map
          (fun xi => (xi, f xi)) ++ [((s.getD 0 dV).1, (s.getD 0 dV).2)]) := by
    simp only [step, hlen, Nat.add_sub_cancel]
    rw [if_neg h1, if_neg h2, if_neg h3]
  refine ⟨heq, ?_, ?_, ?_⟩
  · rw [heq]
    simp [sort_simplex]
  · rw [heq]
    simp [sort_simplex, hlen]
  · rw [heq]
    exact sorted_sort_simplex _

/-- Witness for C4: a constant objective forces the shrink branch. -/
theorem step_shrink_branch_witness :
    1 ≤ 1 ∧ ([([0], (0 : ℚ)), ([1], 0)] : Simplex).length = 1 + 1 ∧
    (step (fun _ => (0 : ℚ)) [([0], (0 : ℚ)), ([1], 0)] Params.default
        [(-5, 5)] =
      sort_simplex (((([([0], (0 : ℚ)), ([1], 0)] : Simplex).drop 1).map
        (fun v => sum ([0] : Point)
          (mult Params.default.delta (diff v.1 ([0] : Point))))).map
            (fun xi => (xi, (0 : ℚ))) ++ [(([0] : Point), (0 : ℚ))]) ∧
      ((([0] : Point), (0 : ℚ)) ∈
        step (fun _ => (0 : ℚ)) [([0], (0 : ℚ)), ([1], 0)] Params.default
          [(-5, 5)]) ∧
      (step (fun _ => (0 : ℚ)) [([0], (0 : ℚ)), ([1], 0)] Params.default
        [(-5, 5)]).length = 1 + 1 ∧
      SortedSimplex (step (fun _ => (0 : ℚ)) [([0], (0 : ℚ)), ([1], 0)]
        Params.default [(-5, 5)])) :=
  ⟨le_refl 1, by decide,
    (step_shrink_branch (fun _ => (0 : ℚ)) Params.default [(-5, 5)]
      [([0], (0 : ℚ)), ([1], 0)] 1 (le_refl 1) (by decide))
      (by decide) (by decide) (by decide)⟩

lemma length_sum (p q : Point) : (sum p q).length = min p.length q.length := by
  simp [sum]

lemma length_mult (k : ℚ) (p : Point) : (mult k p).length = p.length := by
  simp [mult]

lemma getD_sum {p q : Point} {i : ℕ} (hp : i < p.length) (hq : i < q.length) :
    (sum p q).getD i 0 = p.getD i 0 + q.getD i 0 := by
  have hl : i < (sum p q).length := by
    rw [length_sum]
    omega
  rw [List.getD_eq_getElem?_getD, List.getD_eq_getElem?_getD,
    List.getD_eq_getElem?_getD, List.getElem?_eq_getElem hl,
    List.getElem?_eq_getElem hp, List.getElem?_eq_getElem hq]
  simp [sum]

lemma getD_mult {p : Point} {k : ℚ} {i : ℕ} (hp : i < p.length) :
    (mult k p).getD i 0 = k * p.getD i 0 := by
  have hl : i < (mult k p).length := by
    rw [length_mult]
    exact hp
  rw [List.getD_eq_getElem?_getD, List.getD_eq_getElem?_getD,
    List.getElem?_eq_getElem hl, List.getElem?_eq_getElem hp]
  simp [mult]

lemma foldl_sum_length (ps : List Point) (acc : Point) (m : ℕ)
    (hacc : acc.length = m) (hps : ∀ p ∈ ps, p.length = m) :
    (ps.foldl (fun x y => sum x y) acc).length = m := by
  induction ps generalizing acc with
  | nil => simpa using hacc
  | cons a t ih =>
    simp only [List.foldl_cons]
    refine ih (sum acc a) ?_ (fun p hp => hps p (by simp [hp]))
    rw [length_sum, hacc, hps a (by simp)]
    simp

lemma foldl_sum_getD (ps : List Point) (acc : Point) (m i : ℕ)
    (hacc : acc.length = m) (hps : ∀ p ∈ ps, p.length = m) (hi : i < m) :
    (ps.foldl (fun x y => sum x y) acc).getD i 0 =
      acc.getD i 0 + (ps.map (fun p => p.getD i 0)).sum := by
  induction ps generalizing acc with
  | nil => simp
  | cons a t ih =>
    have ha : a.length = m := hps a (by simp)
    have hsa : (sum acc a).length = m := by
      rw [length_sum, hacc, ha]
      simp
    simp only [List.foldl_cons, List.map_cons, List.sum_cons]
    rw [ih (sum acc a) hsa (fun p hp => hps p (by simp [hp])),
      getD_sum (by omega) (by omega)]
    ring

lemma avg_length (ps : List Point) (m : ℕ) (hne : ps ≠ [])
    (hps : ∀ p ∈ ps, p.length = m) : (avg ps).length = m := by
  cases ps with
  | nil => exact absurd rfl hne
  | cons a t =>
    simp only [avg, List.headD_cons, List.drop_succ_cons, List.drop_zero]
    rw [length_mult]
    exact foldl_sum_length t a m (hps a (by simp))
      (fun p hp => hps p (by simp [hp]))

lemma avg_getD (ps : List Point) (m i : ℕ) (hne : ps ≠ [])
    (hps : ∀ p ∈ ps, p.length = m) (hi : i < m) :
    (avg ps).getD i 0 = (ps.map (fun p => p.getD i 0)).sum / (ps.length : ℚ) := by
  cases ps with
  | nil => exact absurd rfl hne
  | cons a t =>
    have ha : a.length = m := hps a (by simp)
    have ht : ∀ p ∈ t, p.length = m := fun p hp => hps p (by simp [hp])
    have hfl : (t.foldl (fun x y => sum x y) a).length = m :=
      foldl_sum_length t a m ha ht
    simp only [avg, List.headD_cons, List.drop_succ_cons, List.drop_zero]
    rw [getD_mult (by omega), foldl_sum_getD t a m i ha ht hi]
    simp only [List.map_cons, List.sum_cons, List.length_cons]
    rw [div_eq_mul_inv]
    ring

/-- C3: within each step, the centroid is the plain arithmetic mean of the
N best vertices (all except the worst), and the three candidates are
xr = c + α·(c − x_worst), xe = c + γ·(xr − c), xc = c + ρ·(x_worst − c),
each passed through the bounds clamp before the objective is evaluated. -/
theorem step_centroid_candidates (f : Point → ℚ) (params : Params)
    (bv : List (ℚ × ℚ)) (s : Simplex) (N m : ℕ) (_hN : 1 ≤ N)
    (hlen : s.length = N + 1) (hm : ∀ v ∈ s, v.1.length = m) :
    (let c := avg ((s.take N).map Prod.fst)
     let xw := (s.getD N dV).1
     let xr := clamp (sum c (mult params.alpha (diff c xw))) bv
     let xe := clamp (sum c (mult params.gamma (diff xr c))) bv
     let xc := clamp (sum c (mult params.rho (diff xw c))) bv
     c.length = m ∧
     (∀ i, i < m →
        c.getD i 0 =
          (((s.take N).map Prod.fst).map (fun p => p.getD i 0)).sum / (N : ℚ)) ∧
     step f s params bv =
       (if (s.getD 0 dV).2 ≤ f xr ∧ f xr < (s.getD (N - 1) dV).2 then
          add_point f s xr
        else if f xe < (s.getD N dV).2 then
          if f xe < f xr then add_point f s xe else add_point f s xr
        else if f xc < (s.getD N dV).2 then
          add_point f s xc
        else
          sort_simplex (((s.drop 1).map (fun v =>
            sum (s.getD 0 dV).1
              (mult params.delta (diff v.1 (s.getD 0 dV).1)))).map
                (fun xi => (xi, f xi)) ++
            [((s.getD 0 dV).1, (s.getD 0 dV).2)]))) := by
  have hlist : ∀ p ∈ (s.take N).map Prod.fst, p.length = m := by
    intro p hp
    obtain ⟨v, hv, rfl⟩ := List.mem_map.mp hp
    exact hm v (List.mem_of_mem_take hv)
  have hlen2 : ((s.take N).map Prod.fst).length = N := by
    simp [hlen]
  have hne : (s.take N).map Prod.fst ≠ [] := by
    intro hcon
    rw [hcon] at hlen2
    simp at hlen2
    omega
  dsimp only
  refine ⟨avg_length _ m hne hlist, ?_, ?_⟩
  · intro i hi
    rw [avg_getD _ m i hne hlist hi, hlen2]
  · simp only [step, hlen, Nat.add_sub_cancel]

/-- Witness for C3 at a concrete one-dimensional simplex. -/
theorem step_centroid_candidates_witness :
    1 ≤ 1 ∧ ([([0], (0 : ℚ)), ([2], 2)] : Simplex).length = 1 + 1 ∧
    (∀ v ∈ ([([0], (0 : ℚ)), ([2], 2)] : Simplex), v.1.length = 1) ∧
    (let s : Simplex := [([0], (0 : ℚ)), ([2], 2)]
     let f : Point → ℚ := fun p => p.headD 0
     let bv : List (ℚ × ℚ) := [(-5, 5)]
     let params := Params.default
     let c := avg ((s.take 1).map Prod.fst)
     let xw := (s.getD 1 dV).1
     let xr := clamp (sum c (mult params.alpha (diff c xw))) bv
     let xe := clamp (sum c (mult params.gamma (diff xr c))) bv
     let xc := clamp (sum c (mult params.rho (diff xw c))) bv
     c.length = 1 ∧
     (∀ i, i < 1 →
        c.getD i 0 =
          (((s.take 1).map Prod.fst).map (fun p => p.getD i 0)).sum / (1 : ℚ)) ∧
     step f s params bv =
       (if (s.getD 0 dV).2 ≤ f xr ∧ f xr < (s.getD (1 - 1) dV).2 then
          add_point f s xr
        else if f xe < (s.getD 1 dV).2 then
          if f xe < f xr then add_point f s xe else add_point f s xr
        else if f xc < (s.getD 1 dV).2 then
          add_point f s xc
        else
          sort_simplex (((s.drop 1).map (fun v =>
            sum (s.getD 0 dV).1
              (mult params.delta (diff v.1 (s.getD 0 dV).1)))).map
                (fun xi => (xi, f xi)) ++
            [((s.getD 0 dV).1, (s.getD 0 dV).2)]))) :=
  ⟨le_refl 1, by decide, by decide,
    step_centroid_candidates (fun p => p.headD 0) Params.default [(-5, 5)]
      [([0], (0 : ℚ)), ([2], 2)] 1 1 (le_refl 1) (by decide) (by decide)⟩

lemma getLastD_eq_getD {s : Simplex} (hne : s ≠ []) :
    s.getLastD dV = s.getD (s.length - 1) dV := by
  have hl : s.length - 1 < s.length := by
    have := List.length_pos.mpr hne
    omega
  rw [getLastD_eq_getLast hne, List.getLast_eq_getElem,
    List.getD_eq_getElem?_getD, List.getElem?_eq_getElem hl]
  rfl

/-- C9: whenever `step` takes the reflection, expansion or contraction
branch, the branch condition forces the accepted candidate's value strictly
below the old worst value, so the step result keeps the N best vertices of
the input untouched (as a multiset) and replaces exactly the old worst
vertex by the accepted candidate. -/
theorem step_frame_preservation (f : Point → ℚ) (params : Params)
    (bv : List (ℚ × ℚ)) (s : Simplex) (N : ℕ) (hN : 1 ≤ N)
    (hlen : s.length = N + 1) (hs : SortedSimplex s) :
    (let fx1 := (s.getD 0 dV).2
     let fxn := (s.getD (N - 1) dV).2
     let fxn1 := (s.getD N dV).2
     let x0 := avg ((s.take N).map Prod.fst)
     let xw := (s.getD N dV).1
     let xr := clamp (sum x0 (mult params.alpha (diff x0 xw))) bv
     let xe := clamp (sum x0 (mult params.gamma (diff xr x0))) bv
     let xc := clamp (sum x0 (mult params.rho (diff xw x0))) bv
     ((fx1 ≤ f xr ∧ f xr < fxn) ∨ f xe < fxn1 ∨ f xc < fxn1) →
       ∃ cand : Point, (cand = xr ∨ cand = xe ∨ cand = xc) ∧
         f cand < fxn1 ∧
         step f s params bv = add_point f s cand ∧
         List.Perm (step f s params bv) (s.dropLast ++ [(cand, f cand)])) := by
  dsimp only
  intro hbr
  have hne : s ≠ [] := by
    intro hc
    rw [hc] at hlen
    simp at hlen
  set c0 := avg ((s.take N).map Prod.fst) with hc0
  set xr := clamp (sum c0 (mult params.alpha (diff c0 (s.getD N dV).1))) bv
    with hxr
  set xe := clamp (sum c0 (mult params.gamma (diff xr c0))) bv with hxe
  set xc := clamp (sum c0 (mult params.rho (diff (s.getD N dV).1 c0))) bv
    with hxc
  have hworst : (s.getLastD dV).2 = (s.getD N dV).2 := by
    rw [getLastD_eq_getD hne, hlen, Nat.add_sub_cancel]
  have hmono : (s.getD (N - 1) dV).2 ≤ (s.getD N dV).2 :=
    sorted_getD_le hs (by omega) (by omega)
  have hframe : ∀ cand : Point, f cand < (s.getD N dV).2 →
      List.Perm (add_point f s cand) (s.dropLast ++ [(cand, f cand)]) := by
    intro cand hlt
    exact add_point_frame f hs hne cand (by rw [hworst]; exact hlt)
  have hunfold : step f s params bv =
      (if (s.getD 0 dV).2 ≤ f xr ∧ f xr < (s.getD (N - 1) dV).2 then
        add_point f s xr
       else if f xe < (s.getD N dV).2 then
        if f xe < f xr then add_point f s xe else add_point f s xr
       else if f xc < (s.getD N dV).2 then add_point f s xc
       else sort_simplex (((s.drop 1).map (fun v =>
          sum (s.getD 0 dV).1 (mult params.delta (diff v.1 (s.getD 0 dV).1)))).map
            (fun xi => (xi, f xi)) ++ [((s.getD 0 dV).1, (s.getD 0 dV).2)])) := by
    rw [hxe, hxc, hxr, hc0]
    simp only [step, hlen, Nat.add_sub_cancel]
  by_cases h1 : (s.getD 0 dV).2 ≤ f xr ∧ f xr < (s.getD (N - 1) dV).2
  · have hlt : f xr < (s.getD N dV).2 := lt_of_lt_of_le h1.2 hmono
    have heq : step f s params bv = add_point f s xr := by
      rw [hunfold, if_pos h1]
    exact ⟨xr, Or.inl rfl, hlt, heq, by rw [heq]; exact hframe xr hlt⟩
  · by_cases h2 : f xe < (s.getD N dV).2
    · by_cases h3 : f xe < f xr
      · have heq : step f s params bv = add_point f s xe := by
          rw [hunfold, if_neg h1, if_pos h2, if_pos h3]
        exact ⟨xe, Or.inr (Or.inl rfl), h2, heq, by rw [heq]; exact hframe xe h2⟩
      · have hrlt : f xr < (s.getD N dV).2 := lt_of_le_of_lt (not_lt.mp h3) h2
        have heq : step f s params bv = add_point f s xr := by
          rw [hunfold, if_neg h1, if_pos h2, if_neg h3]
        exact ⟨xr, Or.inl rfl, hrlt, heq, by rw [heq]; exact hframe xr hrlt⟩
    · have h4 : f xc < (s.getD N dV).2 := by
        rcases hbr with hb | hb | hb
        · exact absurd hb h1
        · exact absurd hb h2
        · exact hb
      have heq : step f s params bv = add_point f s xc := by
        rw [hunfold, if_neg h1, if_neg h2, if_pos h4]
      exact ⟨xc, Or.inr (Or.inr rfl), h4, heq, by rw [heq]; exact hframe xc h4⟩

/-- Witness for C9: an expansion step on a concrete sorted simplex. -/
theorem step_frame_preservation_witness :
    1 ≤ 1 ∧ ([([0], (0 : ℚ)), ([2], 2)] : Simplex).length = 1 + 1 ∧
    SortedSimplex [([0], (0 : ℚ)), ([2], 2)] ∧
    (let s : Simplex := [([0], (0 : ℚ)), ([2], 2)]
     let f : Point → ℚ := fun p => p.headD 0
     let bv : List (ℚ × ℚ) := [(-5, 5)]
     let params := Params.default
     let fxn1 := (s.getD 1 dV).2
     let x0 := avg ((s.take 1).map Prod.fst)
     let xw := (s.getD 1 dV).1
     let xr := clamp (sum x0 (mult params.alpha (diff x0 xw))) bv
     let xe := clamp (sum x0 (mult params.gamma (diff xr x0))) bv
     let xc := clamp (sum x0 (mult params.rho (diff xw x0))) bv
     ∃ cand : Point, (cand = xr ∨ cand = xe ∨ cand = xc) ∧
       f cand < fxn1 ∧
       step f s params bv = add_point f s cand ∧
       List.Perm (step f s params bv) (s.dropLast ++ [(cand, f cand)])) :=
  ⟨le_refl 1, by decide, by decide,
    (step_frame_preservation (fun p => p.headD 0) Params.default [(-5, 5)]
      [([0], (0 : ℚ)), ([2], 2)] 1 (le_refl 1) (by decide) (by decide))
      (by norm_num [avg, mult, sum, diff, clamp, dV, Params.default,
        max_def, min_def])⟩

lemma as_vec_none (n : ℕ) :
    (Bounds.none n).as_vec = List.replicate n (f64MIN, f64MAX) := by
  simp [Bounds.none, Bounds.as_vec]

lemma clamp_replicate_id (p : Point) :
    ∀ (n : ℕ) (lo hi : ℚ), p.length = n → (∀ x ∈ p, lo ≤ x ∧ x ≤ hi) →
      clamp p (List.replicate n (lo, hi)) = p := by
  induction p with
  | nil =>
    intro n lo hi _ _
    simp [clamp]
  | cons a t ih =>
    intro n lo hi hlen hr
    cases n with
    | zero => simp at hlen
    | succ m =>
      have ha := hr a (by simp)
      simp only [List.replicate_succ, clamp, List.zip_cons_cons, List.map_cons]
      rw [min_eq_left ha.2, max_eq_right ha.1]
      have ht := ih m lo hi (by simpa using hlen) (fun x hx => hr x (by simp [hx]))
      simp only [clamp] at ht
      rw [ht]

/-- C7: `clamp` against `Bounds::none n` (whose min/max are the extreme
representable values `std::f64::MIN` / `std::f64::MAX`, here as exact
rationals) is the identity on every point of length n whose coordinates lie
in the representable range — which is every finite double. -/
theorem clamp_unbounded_id (p : Point) (n : ℕ) (hn : p.length = n)
    (hrange : ∀ x ∈ p, f64MIN ≤ x ∧ x ≤ f64MAX) :
    clamp p (Bounds.none n).as_vec = p := by
  rw [as_vec_none]
  exact clamp_replicate_id p n f64MIN f64MAX hn hrange

/-- Witness for C7 at the point [0, 1] in two dimensions. -/
theorem clamp_unbounded_id_witness :
    ([0, 1] : Point).length = 2 ∧
    (∀ x ∈ ([0, 1] : Point), f64MIN ≤ x ∧ x ≤ f64MAX) ∧
    clamp [0, 1] (Bounds.none 2).as_vec = [0, 1] := by
  have hr : ∀ x ∈ ([0, 1] : Point), f64MIN ≤ x ∧ x ≤ f64MAX := by
    simp only [List.forall_mem_cons, List.forall_mem_nil]
    norm_num [f64MIN, f64MAX]
  exact ⟨by decide, hr, clamp_unbounded_id [0, 1] 2 (by decide) hr⟩

/-! ### Failure-instrumented layer: every panic site of the Rust code
(out-of-bounds indexing, `avg` of an empty slice) is modelled as `none`.
The `partial_cmp(..).unwrap()` cannot fail here because the objective
returns a real number, so the order is total. -/

/-- `avg` with the `ps[0]` panic on an empty slice modelled as `none`. -/
def avgOpt (ps : List Point) : Option Point :=
  match ps with
  | [] => Option.none
  | head :: tail =>
    Option.some (mult (1 / ((head :: tail).length : ℚ))
      (tail.foldl (fun x y => sum x y) head))

/-- `step` with every indexing panic modelled as `none`. -/
def stepOpt (f : Point → ℚ) (simplex : Simplex) (params : Params)
    (bounds_vec : List (ℚ × ℚ)) : Option Simplex :=
  let n := simplex.length - 1
  (simplex[0]?).bind (fun v0 =>
  (avgOpt ((simplex.take n).map Prod.fst)).bind (fun x0 =>
  (simplex[n - 1]?).bind (fun vn =>
  (simplex[n]?).map (fun vn1 =>
    let xr := clamp (sum x0 (mult params.alpha (diff x0 vn1.1))) bounds_vec
    let xe := clamp (sum x0 (mult params.gamma (diff xr x0))) bounds_vec
    let xc := clamp (sum x0 (mult params.rho (diff vn1.1 x0))) bounds_vec
    if v0.2 ≤ f xr ∧ f xr < vn.2 then
      add_point f simplex xr
    else if f xe < vn1.2 then
      if f xe < f xr then add_point f simplex xe else add_point f simplex xr
    else if f xc < vn1.2 then
      add_point f simplex xc
    else
      sort_simplex (((simplex.drop 1).map
          (fun v => sum v0.1 (mult params.delta (diff v.1 v0.1)))).map
        (fun xi => (xi, f xi)) ++ [(v0.1, v0.2)])))))

/-- The driver loop with failure propagation. -/
def loopOpt (f : Point → ℚ) (params : Params) (bounds_vec : List (ℚ × ℚ)) :
    ℕ → Simplex → Option Simplex
  | 0, s => Option.some s
  | k + 1, s =>
    (stepOpt f s params bounds_vec).bind
      (fun t => loopOpt f params bounds_vec k t)

/-- `minimize` with every panic site modelled as `none`. -/
def minimizeOpt (f : Point → ℚ) (initial_simplex : Simplex) (params : Params)
    (bounds : Bounds) (max_iter : ℕ) : Option (Point × ℚ) :=
  let bounds_vec := bounds.as_vec
  let n := initial_simplex.length - 1
  (loopOpt f params bounds_vec max_iter initial_simplex).bind (fun curr =>
  (curr[0]?).bind (fun v0 =>
  (avgOpt ((curr.take n).map Prod.fst)).map (fun x0 =>
    let fx0 := f x0
    if v0.2 < fx0 then (v0.1, v0.2) else (x0, fx0))))

/-- `minimize` of src/lib.rs with panic sites modelled as `none`. -/
def minimizeTopOpt (f : Point → ℚ) (initial_point : Point)
    (initial_simplex_size : ℚ) (params : Params) (bounds : Bounds)
    (max_iter : ℕ) (rand : ℕ → ℕ → ℚ) : Option (Point × ℚ) :=
  minimizeOpt f (new_simplex f initial_point initial_simplex_size rand)
    params bounds max_iter

/-- `maximize` of src/lib.rs with panic sites modelled as `none`. -/
def maximizeTopOpt (f : Point → ℚ) (initial_point : Point)
    (initial_simplex_size : ℚ) (params : Params) (bounds : Bounds)
    (max_iter : ℕ) (rand : ℕ → ℕ → ℚ) : Option (Point × ℚ) :=
  let g : Point → ℚ := fun x => -1 * f x
  (minimizeOpt g (new_simplex g initial_point initial_simplex_size rand)
    params bounds max_iter).map (fun r => (r.1, -1 * r.2))

lemma avgOpt_eq {ps : List Point} (h : ps ≠ []) :
    avgOpt ps = Option.some (avg ps) := by
  cases ps with
  | nil => exact absurd rfl h
  | cons a t => rfl

lemma getElem?_eq_some_getD {s : Simplex} {i : ℕ} (h : i < s.length) :
    s[i]? = Option.some (s.getD i dV) := by
  rw [List.getElem?_eq_getElem h, List.getD_eq_getElem?_getD,
    List.getElem?_eq_getElem h]
  rfl

lemma take_map_ne_nil {s : Simplex} {n : ℕ} (hn : 1 ≤ n) (hs : s ≠ []) :
    (s.take n).map Prod.fst ≠ [] := by
  intro hcon
  have := congrArg List.length hcon
  simp only [List.length_map, List.length_take, List.length_nil] at this
  have hl := List.length_pos.mpr hs
  omega

lemma stepOpt_eq (f : Point → ℚ) (params : Params) (bv : List (ℚ × ℚ))
    {s : Simplex} (h : 2 ≤ s.length) :
    stepOpt f s params bv = Option.some (step f s params bv) := by
  have h0 : 0 < s.length := by omega
  have hn1 : s.length - 1 - 1 < s.length := by omega
  have hn : s.length - 1 < s.length := by omega
  have hne : (s.take (s.length - 1)).map Prod.fst ≠ [] :=
    take_map_ne_nil (by omega) (by intro hc; rw [hc] at h; simp at h)
  simp only [stepOpt, getElem?_eq_some_getD h0, getElem?_eq_some_getD hn1,
    getElem?_eq_some_getD hn, avgOpt_eq hne, Option.some_bind,
    Option.map_some', step]

lemma loopOpt_eq (f : Point → ℚ) (params : Params) (bv : List (ℚ × ℚ)) :
    ∀ (k : ℕ) {s : Simplex}, 2 ≤ s.length →
      loopOpt f params bv k s = Option.some (loop f params bv k s)
  | 0, _, _ => rfl
  | k + 1, s, h => by
    have hns : (step f s params bv).length = s.length :=
      step_length f s params bv (by intro hc; rw [hc] at h; simp at h)
    simp only [loopOpt, loop, stepOpt_eq f params bv h, Option.some_bind]
    exact loopOpt_eq f params bv k (by omega)

lemma loop_length (f : Point → ℚ) (params : Params) (bv : List (ℚ × ℚ)) :
    ∀ (k : ℕ) {s : Simplex}, s ≠ [] →
      (loop f params bv k s).length = s.length
  | 0, _, _ => rfl
  | k + 1, s, h => by
    have hns : (step f s params bv).length = s.length :=
      step_length f s params bv h
    simp only [loop]
    rw [loop_length f params bv k (by
      intro hc
      rw [hc] at hns
      have := List.length_pos.mpr h
      simp at hns
      omega), hns]

lemma minimizeOpt_eq (f : Point → ℚ) (params : Params) (bounds : Bounds)
    (k : ℕ) {s : Simplex} (h : 2 ≤ s.length) :
    minimizeOpt f s params bounds k =
      Option.some (minimize f s params bounds k) := by
  have hsne : s ≠ [] := by
    intro hc
    rw [hc] at h
    simp at h
  have hcur : (loop f params bounds.as_vec k s).length = s.length :=
    loop_length f params bounds.as_vec k hsne
  have h0 : 0 < (loop f params bounds.as_vec k s).length := by omega
  have hne : ((loop f params bounds.as_vec k s).take (s.length - 1)).map
      Prod.fst ≠ [] :=
    take_map_ne_nil (by omega) (by
      intro hc
      rw [hc] at hcur
      simp at hcur
      omega)
  simp only [minimizeOpt, loopOpt_eq f params bounds.as_vec k h,
    Option.some_bind, getElem?_eq_some_getD h0, avgOpt_eq hne,
    Option.map_some', minimize]

/-- C8: for well-formed inputs (initial point of dimension N ≥ 1), the
failure-instrumented models of `minimize` and `maximize` — in which every
panic site (out-of-bounds indexing, empty-slice centroid) yields `none` —
run to completion and return exactly the pure results: no panic or failure
branch is reachable during the optimization. -/
theorem optimize_no_failure (f : Point → ℚ) (initial_point : Point)
    (sz : ℚ) (params : Params) (bounds : Bounds) (max_iter : ℕ)
    (rand : ℕ → ℕ → ℚ) (hdim : 1 ≤ initial_point.length) :
    minimizeTopOpt f initial_point sz params bounds max_iter rand =
      Option.some (minimizeTop f initial_point sz params bounds max_iter
        rand) ∧
    maximizeTopOpt f initial_point sz params bounds max_iter rand =
      Option.some (maximizeTop f initial_point sz params bounds max_iter
        rand) := by
  constructor
  · have hlen : 2 ≤ (new_simplex f initial_point sz rand).length := by
      rw [new_simplex_length]
      omega
    exact minimizeOpt_eq f params bounds max_iter hlen
  · have hlen : 2 ≤ (new_simplex (fun x => -1 * f x) initial_point sz
        rand).length := by
      rw [new_simplex_length]
      omega
    simp only [maximizeTopOpt, maximizeTop,
      minimizeOpt_eq (fun x => -1 * f x) params bounds max_iter hlen,
      Option.map_some']

/-- Witness for C8 at a concrete one-dimensional minimization problem. -/
theorem optimize_no_failure_witness :
    1 ≤ ([2] : Point).length ∧
    minimizeTopOpt (fun p => p.headD 0) [2] 1 Params.default ⟨[-9], [9]⟩ 3
        (fun i j => (i : ℚ) - (j : ℚ)) =
      Option.some (minimizeTop (fun p => p.headD 0) [2] 1 Params.default
        ⟨[-9], [9]⟩ 3 (fun i j => (i : ℚ) - (j : ℚ))) ∧
    maximizeTopOpt (fun p => p.headD 0) [2] 1 Params.default ⟨[-9], [9]⟩ 3
        (fun i j => (i : ℚ) - (j : ℚ)) =
      Option.some (maximizeTop (fun p => p.headD 0) [2] 1 Params.default
        ⟨[-9], [9]⟩ 3 (fun i j => (i : ℚ) - (j : ℚ))) := by
  refine ⟨by decide, ?_, ?_⟩
  · exact (optimize_no_failure (fun p => p.headD 0) [2] 1 Params.default
      ⟨[-9], [9]⟩ 3 (fun i j => (i : ℚ) - (j : ℚ)) (by decide)).1
  · exact (optimize_no_failure (fun p => p.headD 0) [2] 1 Params.default
      ⟨[-9], [9]⟩ 3 (fun i j => (i : ℚ) - (j : ℚ)) (by decide)).2

end NelderMead
